import Mathlib

/-!
Verification of the render3 query engine (`packages/core/src/render3/query.ts`).

The TypeScript source is a heap-mutating program: `QueryPredicate.values`
arrays are shared by reference between a `QueryList`'s `_valuesTree` and the
predicate clones produced by `container()` / `enterView()`, and `LQueries_`
tracker objects can be aliased (`child()` may return `this`).  We therefore
embed the program over an explicit heap: nested value-tree arrays, query
lists and trackers are each addressed by numeric ids inside a single
`QState`.  Every operation of the source is translated as a function from
`QState` to `QState` (in `Except String` where the source can throw: dev-mode
assertions and the `TypeError`s that unchecked production code would raise).

External collaborators that are not part of `src/` (the node-injector read
functions, the `flatten` helper, `EventEmitter` notification) are modelled
from the spec where indicated by their doc comments.
-/

namespace Render3Query

/-- Abstract directive/component type tokens (`Type<T>` in the source). -/
abbrev Ty := Nat

/-- Abstract matched values (directive instances, injector-read results). -/
abbrev Val := Nat

/-- An entry of a nested value-tree array: either a matched value pushed by
`addMatch`, or a reference to a nested array pushed/spliced in by
`container()` / `enterView()`. -/
inductive TreeVal where
  | val (v : Val)
  | arr (id : Nat)
deriving DecidableEq, Repr

/-- One entry of `tView.data` in the directive range of a node
(`DirectiveDef`): its `diPublic` flag and its declared `type`. -/
structure DirectiveDef where
  diPublic : Bool
  type : Ty
deriving DecidableEq, Repr

/-- Static node data (`TNode`): the `localNames` table, a sequence of
(name, directive index) pairs where the index is `-1` when the local name
points at the element itself. -/
structure TNode where
  localNames : Option (List (String × Int))
deriving DecidableEq, Repr

/-- A tree node (`LNode`) together with the parts of its view that the query
engine reads: `tData` is `node.view.tView.data` restricted to directive
definitions, `viewData` is `node.view.data` (the stored instances, a slot may
be null), and `flagsIdx`/`flagsSize` are the directive range encoded in
`node.flags` (`flags >> INDX_SHIFT` and the masked size). -/
structure LNode where
  tData : List DirectiveDef
  viewData : List (Option Val)
  flagsIdx : Nat
  flagsSize : Nat
  tNode : Option TNode

/-- The read strategy of a predicate: either a `ReadFromInjectorFn` (an
external lookup collaborator, modelled from the spec as a function from the
node and the matched position to a value or null), or a plain type token. -/
inductive ReadStrategy where
  | fromInjector (read : LNode → Int → Option Val)
  | byType (t : Ty)

/-- A `QueryPredicate` of the source.  `list` is the id of its target
`QueryList`, `values` the id of the value-tree array it currently appends
into.  The `next` chain of the source is represented by the position inside
a `List Pred` (head = most recently linked). -/
structure Pred where
  list : Nat
  type : Option Ty
  selector : Option (List String)
  read : Option ReadStrategy
  values : Nat

/-- The mutable state of a `QueryList_`: the `dirty` flag (initially true),
the materialized `_values`, and the id of its `_valuesTree` array. -/
structure QLState where
  dirty : Bool
  values : List Val
  valuesTree : Nat
deriving DecidableEq, Repr

instance : Inhabited QLState := ⟨⟨true, [], 0⟩⟩

/-- The mutable state of an `LQueries_` tracker: its `shallow` and `deep`
predicate chains. -/
structure Tracker where
  shallow : List Pred
  deep : List Pred

instance : Inhabited Tracker := ⟨⟨[], []⟩⟩

/-- The whole heap: value-tree arrays, query lists and trackers addressed by
ids (indices into the respective lists; allocation appends), plus a log of
change notifications.  The log is modelled from the spec: `notifyOnChanges`
"emits a change notification" on the list's `changes` stream; we record the
id of the notified list. -/
structure QState where
  arrays : List (List TreeVal)
  lists : List QLState
  trackers : List Tracker
  notifications : List Nat

/-- Read a value-tree array from the heap. -/
def getArray (s : QState) (i : Nat) : List TreeVal := (s.arrays[i]?).getD []

/-- Overwrite a value-tree array in the heap (no-op when `i` is unallocated,
which reachable states never do: every `Pred.values` is a live array). -/
def setArray (s : QState) (i : Nat) (a : List TreeVal) : QState :=
  { s with arrays := s.arrays.set i a }

/-- Read a query list from the heap. -/
def getList (s : QState) (i : Nat) : QLState := (s.lists[i]?).getD default

/-- `QueryList_.setDirty`: set the `dirty` flag of list `i`. -/
def setDirty (s : QState) (i : Nat) : QState :=
  { s with lists := s.lists.set i { getList s i with dirty := true } }

/-- Read a tracker from the heap. -/
def getTracker (s : QState) (i : Nat) : Tracker := (s.trackers[i]?).getD default

/-- Look a selector up in a `localNames` pair list: source loop
`for (i = 0; i < localNames.length; i += 2)`. -/
def lookupName : List (String × Int) → String → Option Int
  | [], _ => none
  | (n, idx) :: rest, selector => if n = selector then some idx else lookupName rest selector

/-- `getIdxOfMatchingSelector`: first matching local name's directive index
(`-1` when the name points at the element), or null. -/
def getIdxOfMatchingSelector (tNode : TNode) (selector : String) : Option Int :=
  match tNode.localNames with
  | none => none
  | some pairs => lookupName pairs selector

/-- The scan loop of `geIdxOfMatchingDirective`, from index `i` for `count`
entries.  The `type` argument is an `Option` because the production path of
the selector branch passes the JavaScript `null` through the `as Type` cast;
`def.type === null` is false for every real definition. -/
def scanDirectives (tData : List DirectiveDef) (type : Option Ty) : Nat → Nat → Option Nat
  | _, 0 => none
  | i, Nat.succ count =>
    match tData[i]? with
    | some d => if d.diPublic && (some d.type == type) then some i
                else scanDirectives tData type (i + 1) count
    | none => scanDirectives tData type (i + 1) count

/-- `geIdxOfMatchingDirective` (sic): index of the directive of the given
type in the node's directive range, or null. -/
def geIdxOfMatchingDirective (node : LNode) (type : Option Ty) : Option Nat :=
  scanDirectives node.tData type node.flagsIdx node.flagsSize

/-- `node.view.data[matchingIdx]`: the stored instance at a directive
position (a slot may itself hold null). -/
def readInstance (node : LNode) (i : Nat) : Option Val :=
  (node.viewData[i]?).getD none

/-- `readFromNodeInjector`: dispatch on the read strategy.  The node
injector obtained by `getOrCreateNodeInjectorForNode` is absorbed into the
`fromInjector` function, which is modelled from the spec as the external
lookup collaborator `resolve(context, node, position) -> value|null`.
`read = none` is the production path where a missing `predicate.read` is
passed through unchecked: `null instanceof ReadFromInjectorFn` is false and
the directive re-scan for the null token never matches. -/
def readFromNodeInjector (node : LNode) (read : Option ReadStrategy)
    (directiveIdx : Int) : Option Val :=
  match read with
  | some (.fromInjector f) => f node directiveIdx
  | some (.byType t) =>
    match geIdxOfMatchingDirective node (some t) with
    | some matchingIdx => readInstance node matchingIdx
    | none => none
  | none =>
    match geIdxOfMatchingDirective node none with
    | some matchingIdx => readInstance node matchingIdx
    | none => none

/-- `addMatch`: push the matching value onto the predicate's current values
array and mark its target list dirty. -/
def addMatch (s : QState) (p : Pred) (v : Val) : QState :=
  setDirty (setArray s p.values (getArray s p.values ++ [TreeVal.val v])) p.list

/-- The selector `for` loop inside `add`.  Per iteration the source runs
`ngDevMode && assertNotNull(node.tNode)`, matches the name, then (only on a
match) `ngDevMode && assertNotNull(predicate.read)` before resolving.
Assertion failures are modelled from the spec ("abort the current operation
loudly in debug mode") as `Except.error`; a null `tNode` dereference in
production is the corresponding `TypeError`. -/
def addSelectorLoop (dev : Bool) (p : Pred) (node : LNode) :
    QState → List String → Except String QState
  | s, [] => .ok s
  | s, name :: rest =>
    if dev && node.tNode.isNone then .error "assertNotNull: node.tNode" else
    match node.tNode with
    | none => .error "TypeError: node.tNode is null"
    | some tn =>
      match getIdxOfMatchingSelector tn name with
      | none => addSelectorLoop dev p node s rest
      | some directiveIdx =>
        if dev && p.read.isNone then .error "assertNotNull: predicate.read" else
        match readFromNodeInjector node p.read directiveIdx with
        | some v => addSelectorLoop dev p node (addMatch s p v) rest
        | none => addSelectorLoop dev p node s rest

/-- The body of `add` for a single predicate: the `ByType` branch (with the
`predicate.read || type` default) or the `BySelector` branch. -/
def addPred (dev : Bool) (s : QState) (p : Pred) (node : LNode) : Except String QState :=
  match p.type with
  | some t =>
    match geIdxOfMatchingDirective node (some t) with
    | some directiveIdx =>
      match readFromNodeInjector node (some (p.read.getD (.byType t))) (Int.ofNat directiveIdx) with
      | some v => .ok (addMatch s p v)
      | none => .ok s
    | none => .ok s
  | none =>
    match p.selector with
    | none => .error "TypeError: predicate.selector is null"
    | some sel => addSelectorLoop dev p node s sel

/-- `add`: walk a predicate chain, testing the node against each predicate. -/
def add (dev : Bool) : QState → List Pred → LNode → Except String QState
  | s, [], _ => .ok s
  | s, p :: rest, node =>
    match addPred dev s p node with
    | .ok s1 => add dev s1 rest node
    | .error e => .error e

/-- `LQueries_.addNode`: feed the node through the shallow chain, then the
deep chain, of tracker `tid`. -/
def addNode (dev : Bool) (s : QState) (tid : Nat) (node : LNode) : Except String QState :=
  let t := getTracker s tid
  match add dev s t.shallow node with
  | .ok s1 => add dev s1 t.deep node
  | .error e => .error e

/-- `createPredicate`: build a predicate for a type or selector query whose
`values` is the target list's `_valuesTree` array. -/
def createPredicate (listId : Nat) (valuesTree : Nat) (pred : Ty ⊕ List String)
    (read : Option ReadStrategy) : Pred :=
  { list := listId,
    type := match pred with | .inl t => some t | .inr _ => none,
    selector := match pred with | .inl _ => none | .inr sel => some sel,
    read := read,
    values := valuesTree }

/-- `LQueries_.track`: prepend a new predicate to the deep chain when
`descend`, else to the shallow chain, mutating tracker `tid` in place. -/
def track (s : QState) (tid : Nat) (listId : Nat) (pred : Ty ⊕ List String)
    (descend : Bool) (read : Option ReadStrategy) : QState :=
  let t := getTracker s tid
  let newPred := createPredicate listId (getList s listId).valuesTree pred read
  if descend then
    { s with trackers := s.trackers.set tid { t with deep := newPred :: t.deep } }
  else
    { s with trackers := s.trackers.set tid { t with shallow := newPred :: t.shallow } }

/-- `LQueries_.child`: null when there are no deep predicates; the same
tracker (same id, heap untouched) when there are deep but no shallow
predicates; otherwise a freshly allocated tracker carrying only the deep
chain. -/
def child (s : QState) (tid : Nat) : QState × Option Nat :=
  let t := getTracker s tid
  match t.deep with
  | [] => (s, none)
  | _ =>
    match t.shallow with
    | [] => (s, some tid)
    | _ =>
      ({ s with trackers := s.trackers ++ [{ shallow := [], deep := t.deep }] },
       some s.trackers.length)

/-- The `while` loop of `LQueries_.container`: for each deep predicate,
allocate a fresh empty array, push a reference to it onto the predicate's
values array, and prepend a clone pointing at the fresh array (prepending
reverses the chain, as `clonedPredicate.next = result` does). -/
def containerLoop : QState → List Pred → List Pred → QState × List Pred
  | s, [], acc => (s, acc)
  | s, p :: rest, acc =>
    let newId := s.arrays.length
    let s1 : QState := { s with arrays := s.arrays ++ [[]] }
    let s2 := setArray s1 p.values (getArray s1 p.values ++ [TreeVal.arr newId])
    containerLoop s2 rest ({ p with values := newId } :: acc)

/-- `LQueries_.container`: clone the deep chain with private container
arrays; null when the deep chain is empty, else a fresh tracker. -/
def container (s : QState) (tid : Nat) : QState × Option Nat :=
  let (s1, clones) := containerLoop s (getTracker s tid).deep []
  match clones with
  | [] => (s1, none)
  | _ =>
    ({ s1 with trackers := s1.trackers ++ [{ shallow := [], deep := clones }] },
     some s1.trackers.length)

/-- `values.splice(index, 0, a)` for a non-negative index: insert `a` at
position `index`, clamped to the array length as JavaScript does. -/
def spliceInsert (l : List TreeVal) (index : Nat) (a : TreeVal) : List TreeVal :=
  l.take index ++ a :: l.drop index

/-- The `while` loop of `LQueries_.enterView`: identical to `containerLoop`
except the fresh array is spliced in at ordinal `index` instead of pushed. -/
def enterViewLoop (index : Nat) : QState → List Pred → List Pred → QState × List Pred
  | s, [], acc => (s, acc)
  | s, p :: rest, acc =>
    let newId := s.arrays.length
    let s1 : QState := { s with arrays := s.arrays ++ [[]] }
    let s2 := setArray s1 p.values (spliceInsert (getArray s1 p.values) index (TreeVal.arr newId))
    enterViewLoop index s2 rest ({ p with values := newId } :: acc)

/-- `LQueries_.enterView`. -/
def enterView (s : QState) (tid : Nat) (index : Nat) : QState × Option Nat :=
  let (s1, clones) := enterViewLoop index s (getTracker s tid).deep []
  match clones with
  | [] => (s1, none)
  | _ =>
    ({ s1 with trackers := s1.trackers ++ [{ shallow := [], deep := clones }] },
     some s1.trackers.length)

/-- One iteration of the `removeView` loop for predicate `p`:
`removed = predicate.values.splice(index, 1)`, then the dev-mode
`assertEqual(removed.length, 1)`, then `if (removed[0].length) setDirty()`.
When the splice removed nothing, dev mode fails the assertion and production
raises the `TypeError` of `removed[0].length`; when the removed entry is a
plain matched value, its `length` is undefined (falsy) and no dirty signal
is produced. -/
def removeViewStep (dev : Bool) (index : Nat) (s : QState) (p : Pred) : Except String QState :=
  let arr := getArray s p.values
  let removed := arr[index]?
  let s1 := setArray s p.values (arr.eraseIdx index)
  if dev && removed.isNone then .error "assertEqual: removed.length" else
  match removed with
  | none => .error "TypeError: removed[0] is undefined"
  | some (.arr aid) =>
    .ok (if (getArray s1 aid).length != 0 then setDirty s1 p.list else s1)
  | some (.val _) => .ok s1

/-- The `while` loop of `LQueries_.removeView` over a deep chain. -/
def removeViewChain (dev : Bool) (index : Nat) : QState → List Pred → Except String QState
  | s, [] => .ok s
  | s, p :: rest =>
    match removeViewStep dev index s p with
    | .ok s1 => removeViewChain dev index s1 rest
    | .error e => .error e

/-- `LQueries_.removeView`: run the loop over tracker `tid`'s deep chain. -/
def removeView (dev : Bool) (s : QState) (tid : Nat) (index : Nat) : Except String QState :=
  removeViewChain dev index s (getTracker s tid).deep

/-- `QueryList_` constructor: allocate a fresh `_valuesTree` array and a
fresh list with `dirty = true` and no materialized values; returns the new
list's id. -/
def newQueryList (s : QState) : QState × Nat :=
  ({ s with
      arrays := s.arrays ++ [[]],
      lists := s.lists ++ [{ dirty := true, values := [], valuesTree := s.arrays.length }] },
   s.lists.length)

/-- `LQueries_` constructor: allocate a tracker with an empty shallow chain
and the given deep chain; returns the new tracker's id. -/
def newLQueries (s : QState) (deep : List Pred) : QState × Nat :=
  ({ s with trackers := s.trackers ++ [{ shallow := [], deep := deep }] },
   s.trackers.length)

/-- Modelled from the spec: the `flatten` helper of `render3/util.ts` (not
under `src/`), which "flatten[s] the nested value tree into `values`" —
recursively splicing nested arrays into one ordered sequence.  Value-tree
entries reference nested arrays through the heap, so the recursion is
bounded by a fuel; references created by the engine always point to
later-allocated arrays, hence nesting depth is at most the heap size and
`flattenTree` gives the heap-size fuel. -/
def flattenEntry (heap : List (List TreeVal)) : Nat → TreeVal → List Val
  | _, TreeVal.val v => [v]
  | 0, TreeVal.arr _ => []
  | fuel + 1, TreeVal.arr id =>
    ((heap[id]?).getD []).foldr (fun e acc => flattenEntry heap fuel e ++ acc) []

/-- Modelled from the spec: flatten the value tree rooted at array `id`
(the `flatten(res)` call of `QueryList_.reset`). -/
def flattenTree (heap : List (List TreeVal)) (id : Nat) : List Val :=
  ((heap[id]?).getD []).foldr (fun e acc => flattenEntry heap heap.length e ++ acc) []

/-- `queryRefresh`: when the list is dirty, `reset` it (materialize the
flattened value tree, clear `dirty`), notify observers and return true;
otherwise return false and do nothing. -/
def queryRefresh (s : QState) (listId : Nat) : QState × Bool :=
  let ql := getList s listId
  if ql.dirty then
    ({ s with
        lists := s.lists.set listId
          { ql with dirty := false, values := flattenTree s.arrays ql.valuesTree },
        notifications := s.notifications ++ [listId] }, true)
  else (s, false)

/-- `QueryList_.first`: `values.length ? values[0] : null`. -/
def qlFirst (q : QLState) : Option Val :=
  if q.values.length != 0 then q.values[0]? else none

/-- `QueryList_.last`: `values.length ? values[values.length - 1] : null`. -/
def qlLast (q : QLState) : Option Val :=
  if q.values.length != 0 then q.values[q.values.length - 1]? else none

/-- Modelled from the spec: the always-clone variant of `child()` described
in the design notes — "an implementer may skip [the reuse optimization]
without breaking correctness": when the deep chain is non-empty it always
allocates a fresh tracker carrying only the deep chain instead of ever
returning the same tracker instance. -/
def childAlwaysClone (s : QState) (tid : Nat) : QState × Option Nat :=
  let t := getTracker s tid
  match t.deep with
  | [] => (s, none)
  | _ =>
    ({ s with trackers := s.trackers ++ [{ shallow := [], deep := t.deep }] },
     some s.trackers.length)

/-- The empty heap. -/
def emptyState : QState := { arrays := [], lists := [], trackers := [], notifications := [] }

/-- A node carrying one public directive of type `ty` whose stored instance
is `v` (directive range `[0, 1)`), with no local names. -/
def mkNode (ty : Ty) (v : Val) : LNode :=
  { tData := [{ diPublic := true, type := ty }],
    viewData := [some v],
    flagsIdx := 0, flagsSize := 1, tNode := none }

/-- Shared scenario base for the `child()` aliasing runs: one query list
(id 0) with a deep `ByType 5` predicate tracked on the root tracker (id 0),
and a second query list (id 1) for a shallow query yet to be registered. -/
def scenarioBase : QState :=
  let s1 := (newQueryList emptyState).1
  let s2 := (newLQueries s1 []).1
  let s3 := track s2 0 0 (Sum.inl 5) true none
  (newQueryList s3).1

/-- The `child()`-reuse run behind the claim about `track` through a child
scope: take `child()` of the root tracker (the source returns the same
instance), register a shallow `ByType 7` query for list 1 through the child
handle, then add a matching node through the parent handle.  Returns the
final contents of list 1's value tree (or none when a step failed). -/
def childReuseTrackRun : Option (List TreeVal) :=
  let s := scenarioBase
  match (child s 0).2 with
  | none => none
  | some cid =>
    let s5 := track (child s 0).1 cid 1 (Sum.inl 7) false none
    match addNode true s5 0 (mkNode 7 42) with
    | .ok s6 => some (getArray s6 (getList s6 1).valuesTree)
    | .error _ => none

/-- The same run against the spec's always-clone `child()`. -/
def childCloneTrackRun : Option (List TreeVal) :=
  let s := scenarioBase
  match (childAlwaysClone s 0).2 with
  | none => none
  | some cid =>
    let s5 := track (childAlwaysClone s 0).1 cid 1 (Sum.inl 7) false none
    match addNode true s5 0 (mkNode 7 42) with
    | .ok s6 => some (getArray s6 (getList s6 1).valuesTree)
    | .error _ => none

/-- The mirror run behind the shallow-non-propagation claim: take `child()`
of the root tracker, register a shallow `ByType 7` query for list 1 through
the parent handle, then add a matching node through the child handle.
Returns the final contents of list 1's value tree. -/
def childReuseShallowLeakRun : Option (List TreeVal) :=
  let s := scenarioBase
  match (child s 0).2 with
  | none => none
  | some cid =>
    let s5 := track (child s 0).1 0 1 (Sum.inl 7) false none
    match addNode true s5 cid (mkNode 7 42) with
    | .ok s6 => some (getArray s6 (getList s6 1).valuesTree)
    | .error _ => none

/-- The same mirror run against the spec's always-clone `child()`. -/
def childCloneShallowLeakRun : Option (List TreeVal) :=
  let s := scenarioBase
  match (childAlwaysClone s 0).2 with
  | none => none
  | some cid =>
    let s5 := track (childAlwaysClone s 0).1 0 1 (Sum.inl 7) false none
    match addNode true s5 cid (mkNode 7 42) with
    | .ok s6 => some (getArray s6 (getList s6 1).valuesTree)
    | .error _ => none

/-- Scenario base for the view-insertion-ordering runs: one query list
(id 0) with a deep `ByType 5` predicate on the root tracker (id 0), then a
`container()` scope (tracker id 1). -/
def orderingBase : QState :=
  let s1 := (newQueryList emptyState).1
  let s2 := (newLQueries s1 []).1
  let s3 := track s2 0 0 (Sum.inl 5) true none
  (container s3 0).1

/-- Ordering run A: enter view 0, then view 1 (ascending issue order); add a
node with instance 100 in view 0 and one with instance 200 in view 1; return
the flattened query result. -/
def orderingRunA : Option (List Val) :=
  let s := orderingBase
  let e0 := enterView s 1 0
  match e0.2 with
  | none => none
  | some vid0 =>
    let e1 := enterView e0.1 1 1
    match e1.2 with
    | none => none
    | some vid1 =>
      match addNode true e1.1 vid0 (mkNode 5 100) with
      | .error _ => none
      | .ok s4 =>
        match addNode true s4 vid1 (mkNode 5 200) with
        | .error _ => none
        | .ok s5 => some (flattenTree s5.arrays (getList s5 0).valuesTree)

/-- Ordering run B: first enter the view holding instance 200 at index 0,
then enter the view holding instance 100 at index 0 (shifting the former to
position 1); the issue order is reversed but the final positions are the
same as in run A. -/
def orderingRunB : Option (List Val) :=
  let s := orderingBase
  let e0 := enterView s 1 0
  match e0.2 with
  | none => none
  | some vidB =>
    let e1 := enterView e0.1 1 0
    match e1.2 with
    | none => none
    | some vidA =>
      match addNode true e1.1 vidA (mkNode 5 100) with
      | .error _ => none
      | .ok s4 =>
        match addNode true s4 vidB (mkNode 5 200) with
        | .error _ => none
        | .ok s5 => some (flattenTree s5.arrays (getList s5 0).valuesTree)

/-- A one-tracker heap used to exercise the `child()` case analysis. -/
def childCaseState (sh dp : List Pred) : QState :=
  { arrays := [], lists := [], trackers := [⟨sh, dp⟩], notifications := [] }

/-- A deep predicate literal targeting list `l` with values array `a`. -/
def mkTypePred (l : Nat) (t : Ty) (a : Nat) : Pred :=
  { list := l, type := some t, selector := none, read := none, values := a }

/-- A one-list heap whose list 0 (dirty flag `d`) owns value tree 0 holding
a single matched value. -/
def oneListState (d : Bool) : QState :=
  { arrays := [[TreeVal.val 9]], lists := [⟨d, [], 0⟩], trackers := [], notifications := [] }

/-- A heap whose clean list 0 owns value tree 0, which holds the view slice
`arr 1` at index 0, the slice holding one matched value. -/
def oneSliceState : QState :=
  { arrays := [[TreeVal.arr 1], [TreeVal.val 5]], lists := [⟨false, [], 0⟩],
    trackers := [], notifications := [] }

/-- A heap with one dirty list owning value tree 0 and one tracker (id 0)
carrying a single deep `ByType 5` predicate feeding that tree. -/
def deepTrackerState : QState :=
  { arrays := [[]], lists := [⟨true, [], 0⟩],
    trackers := [⟨[], [mkTypePred 0 5 0]⟩], notifications := [] }

/-! ### Heap frame lemmas -/

theorem getArray_setArray_self (s : QState) (i : Nat) (a : List TreeVal)
    (h : i < s.arrays.length) : getArray (setArray s i a) i = a := by
  simp [getArray, setArray, List.getElem?_set, h]

theorem getArray_setArray_ne (s : QState) (i j : Nat) (a : List TreeVal)
    (h : i ≠ j) : getArray (setArray s i a) j = getArray s j := by
  simp [getArray, setArray, List.getElem?_set, h]

theorem getArray_extend (s : QState) (x : List TreeVal) (j : Nat)
    (h : j < s.arrays.length) :
    getArray { s with arrays := s.arrays ++ [x] } j = getArray s j := by
  simp [getArray, List.getElem?_append, h]

theorem getArray_extend_fresh (s : QState) (x : List TreeVal) :
    getArray { s with arrays := s.arrays ++ [x] } s.arrays.length = x := by
  simp [getArray, List.getElem?_concat_length]

theorem arrays_length_setArray (s : QState) (i : Nat) (a : List TreeVal) :
    (setArray s i a).arrays.length = s.arrays.length := by
  simp [setArray]

theorem getArray_setDirty (s : QState) (l j : Nat) :
    getArray (setDirty s l) j = getArray s j := rfl

theorem getArray_addMatch_ne (s : QState) (p : Pred) (v : Val) (q : Nat)
    (h : q ≠ p.values) : getArray (addMatch s p v) q = getArray s q := by
  simp only [addMatch, getArray_setDirty]
  exact getArray_setArray_ne s p.values q _ (fun e => h e.symm)

theorem getList_setDirty_self (s : QState) (l : Nat) (hl : l < s.lists.length) :
    getList (setDirty s l) l = { getList s l with dirty := true } := by
  simp [setDirty, getList, List.getElem?_set, hl]

theorem getArray_pos_of_entry (s : QState) (i j : Nat) (e : TreeVal)
    (h : (getArray s i)[j]? = some e) : i < s.arrays.length := by
  by_contra hge
  push_neg at hge
  have h0 : getArray s i = [] := by
    simp [getArray, List.getElem?_eq_none hge]
  rw [h0] at h
  simp at h

theorem flattenTree_of_empty (s : QState) (i : Nat) (h : getArray s i = []) :
    flattenTree s.arrays i = [] := by
  have h0 : (s.arrays[i]?).getD [] = ([] : List TreeVal) := h
  simp [flattenTree, h0]

/-- The directive scan for the null token (`def.type === null`) never
matches. -/
theorem scanDirectives_none (tData : List DirectiveDef) (i c : Nat) :
    scanDirectives tData none i c = none := by
  induction c generalizing i with
  | zero => rfl
  | succ c ih =>
    simp only [scanDirectives]
    cases tData[i]? with
    | none => exact ih (i + 1)
    | some d => simpa using ih (i + 1)

/-- Reading with a null strategy resolves nothing. -/
theorem readFromNodeInjector_none (node : LNode) (idx : Int) :
    readFromNodeInjector node none idx = none := by
  simp [readFromNodeInjector, geIdxOfMatchingDirective, scanDirectives_none]

/-- Dev-mode selector loop with a missing read strategy: the first matching
name trips `assertNotNull(predicate.read)`. -/
theorem addSelectorLoop_dev_missing_read (p : Pred) (node : LNode) (tn : TNode)
    (hread : p.read = none) (htn : node.tNode = some tn) :
    ∀ sel s, (∃ name ∈ sel, (getIdxOfMatchingSelector tn name).isSome = true) →
      addSelectorLoop true p node s sel = .error "assertNotNull: predicate.read" := by
  intro sel
  induction sel with
  | nil =>
    intro s h
    simp at h
  | cons name rest ih =>
    intro s h
    simp only [addSelectorLoop, htn, Option.isNone_some, Bool.and_false, Bool.false_eq_true,
      if_false]
    cases hidx : getIdxOfMatchingSelector tn name with
    | some idx => simp [hread]
    | none =>
      obtain ⟨nm, hmem, hsome⟩ := h
      rcases List.mem_cons.mp hmem with heq | hmem'
      · rw [heq, hidx] at hsome
        simp at hsome
      · exact ih s ⟨nm, hmem', hsome⟩

/-- Production selector loop with a missing read strategy: every match
resolves to null, so nothing is appended and no list is dirtied. -/
theorem addSelectorLoop_prod_missing_read (p : Pred) (node : LNode) (tn : TNode)
    (hread : p.read = none) (htn : node.tNode = some tn) :
    ∀ sel s, addSelectorLoop false p node s sel = .ok s := by
  intro sel
  induction sel with
  | nil => intro s; rfl
  | cons name rest ih =>
    intro s
    simp only [addSelectorLoop, htn, Bool.false_and, Bool.false_eq_true, if_false]
    cases hidx : getIdxOfMatchingSelector tn name with
    | some idx => simp [hread, readFromNodeInjector_none, ih s]
    | none => exact ih s

/-- A one-predicate chain walk is the single predicate's evaluation. -/
theorem add_singleton (dev : Bool) (s : QState) (p : Pred) (node : LNode) :
    add dev s [p] node = addPred dev s p node := by
  cases h : addPred dev s p node <;> simp [add, h]

/-- Selector loop where every matching name resolves to null: the heap is
returned unchanged. -/
theorem addSelectorLoop_all_null (dev : Bool) (p : Pred) (node : LNode) (tn : TNode)
    (r : ReadStrategy) (hr : p.read = some r) (htn : node.tNode = some tn) :
    ∀ sel s, (∀ name ∈ sel, ∀ j, getIdxOfMatchingSelector tn name = some j →
        readFromNodeInjector node p.read j = none) →
      addSelectorLoop dev p node s sel = .ok s := by
  intro sel
  induction sel with
  | nil => intro s _; rfl
  | cons name rest ih =>
    intro s hall
    simp only [addSelectorLoop, htn, Option.isNone_some, Bool.and_false, Bool.false_eq_true,
      if_false]
    cases hidx : getIdxOfMatchingSelector tn name with
    | none => exact ih s (fun nm hm j hj => hall nm (List.mem_cons_of_mem _ hm) j hj)
    | some idx =>
      have hnull : readFromNodeInjector node (some r) idx = none :=
        hr ▸ hall name (List.mem_cons_self _ _) idx hidx
      simp only [hnull, hr, Option.isNone_some, Bool.and_false, Bool.false_eq_true, if_false]
      exact ih s (fun nm hm j hj => hall nm (List.mem_cons_of_mem _ hm) j hj)

/-! ### Claim theorems -/

/-- C10: on an empty materialized list both `first` and `last` return null
(`none`), without throwing; on a non-empty list `first` is the value at
index 0 (`head?`) and `last` the value at the final index (`getLast?`). -/
theorem first_last_null_on_empty (q : QLState) :
    (q.values = [] → qlFirst q = none ∧ qlLast q = none)
    ∧ qlFirst q = q.values.head? ∧ qlLast q = q.values.getLast? := by
  cases hv : q.values with
  | nil => simp [qlFirst, qlLast, hv]
  | cons a l =>
    refine ⟨by simp [hv], ?_, ?_⟩
    · simp [qlFirst, hv]
    · rw [List.getLast?_eq_getElem?]
      simp [qlLast, hv]

/-- Witness for `first_last_null_on_empty` at an empty and a two-element
list. -/
theorem first_last_null_on_empty_witness :
    (qlFirst ⟨true, ([] : List Val), 0⟩ = none ∧ qlLast ⟨true, ([] : List Val), 0⟩ = none)
    ∧ qlFirst ⟨false, [3, 4], 0⟩ = some 3 ∧ qlLast ⟨false, [3, 4], 0⟩ = some 4 := by
  refine ⟨(first_last_null_on_empty ⟨true, [], 0⟩).1 rfl, ?_, ?_⟩
  · rw [(first_last_null_on_empty ⟨false, [3, 4], 0⟩).2.1]; rfl
  · rw [(first_last_null_on_empty ⟨false, [3, 4], 0⟩).2.2]; rfl

/-- C8: `child()` returns null when the deep chain is empty; the same
tracker id with the heap untouched when the deep chain is non-empty and the
shallow chain is empty; and otherwise a freshly allocated tracker carrying
only the deep chain (empty shallow chain). -/
theorem child_case_analysis (s : QState) (tid : Nat) :
    ((getTracker s tid).deep = [] → child s tid = (s, none))
    ∧ ((getTracker s tid).deep ≠ [] → (getTracker s tid).shallow = [] →
        child s tid = (s, some tid))
    ∧ ((getTracker s tid).deep ≠ [] → (getTracker s tid).shallow ≠ [] →
        child s tid =
          ({ s with trackers :=
              s.trackers ++ [{ shallow := [], deep := (getTracker s tid).deep }] },
           some s.trackers.length)) := by
  refine ⟨fun hd => ?_, fun hd hs => ?_, fun hd hs => ?_⟩
  · simp [child, hd]
  · cases hd' : (getTracker s tid).deep with
    | nil => exact absurd hd' hd
    | cons p rest => simp [child, hd', hs]
  · cases hd' : (getTracker s tid).deep with
    | nil => exact absurd hd' hd
    | cons p rest =>
      cases hs' : (getTracker s tid).shallow with
      | nil => exact absurd hs' hs
      | cons q qs => simp [child, hd', hs']

/-- Witness for `child_case_analysis`: all three cases at concrete
trackers. -/
theorem child_case_analysis_witness :
    child (childCaseState [] []) 0 = (childCaseState [] [], none)
    ∧ child (childCaseState [] [mkTypePred 0 5 0]) 0
        = (childCaseState [] [mkTypePred 0 5 0], some 0)
    ∧ child (childCaseState [mkTypePred 1 6 1] [mkTypePred 0 5 0]) 0
        = ({ childCaseState [mkTypePred 1 6 1] [mkTypePred 0 5 0] with
             trackers := [⟨[mkTypePred 1 6 1], [mkTypePred 0 5 0]⟩, ⟨[], [mkTypePred 0 5 0]⟩] },
           some 1) := by
  refine ⟨(child_case_analysis _ 0).1 rfl,
    (child_case_analysis _ 0).2.1 (by simp [getTracker, childCaseState]) rfl, ?_⟩
  have h := (child_case_analysis (childCaseState [mkTypePred 1 6 1] [mkTypePred 0 5 0]) 0).2.2
    (by simp [getTracker, childCaseState]) (by simp [getTracker, childCaseState])
  simpa [getTracker, childCaseState] using h

/-- Reduction of `queryRefresh` on a dirty list. -/
theorem queryRefresh_dirty_run (s : QState) (lid : Nat)
    (h : (getList s lid).dirty = true) :
    queryRefresh s lid =
      ({ s with
          lists := s.lists.set lid
            { getList s lid with
                dirty := false,
                values := flattenTree s.arrays (getList s lid).valuesTree },
          notifications := s.notifications ++ [lid] }, true) := by
  simp [queryRefresh, h]

/-- Reduction of `queryRefresh` on a fresh list. -/
theorem queryRefresh_clean_run (s : QState) (lid : Nat)
    (h : (getList s lid).dirty = false) :
    queryRefresh s lid = (s, false) := by
  simp [queryRefresh, h]

/-- After a dirty refresh the list is the reset one. -/
theorem getList_queryRefresh_dirty (s : QState) (lid : Nat)
    (hl : lid < s.lists.length) (h : (getList s lid).dirty = true) :
    getList (queryRefresh s lid).1 lid =
      { getList s lid with
          dirty := false,
          values := flattenTree s.arrays (getList s lid).valuesTree } := by
  rw [queryRefresh_dirty_run s lid h]
  simp [getList, List.getElem?_set, hl]

/-- C2: `queryRefresh` returns true, replaces the materialized values with
the flattened value tree, clears `dirty` and appends exactly one change
notification precisely when the list is dirty; on a fresh list it is a
no-op returning false; hence a second consecutive call is always a no-op
returning false. -/
theorem queryRefresh_flushes_exactly_when_dirty (s : QState) (lid : Nat)
    (hl : lid < s.lists.length) :
    (queryRefresh s lid).2 = (getList s lid).dirty
    ∧ ((getList s lid).dirty = true →
        (queryRefresh s lid).1.lists = s.lists.set lid
          { getList s lid with
              dirty := false,
              values := flattenTree s.arrays (getList s lid).valuesTree }
        ∧ (queryRefresh s lid).1.notifications = s.notifications ++ [lid]
        ∧ (queryRefresh s lid).1.arrays = s.arrays
        ∧ (queryRefresh s lid).1.trackers = s.trackers)
    ∧ ((getList s lid).dirty = false → (queryRefresh s lid).1 = s)
    ∧ (queryRefresh (queryRefresh s lid).1 lid).2 = false
    ∧ (queryRefresh (queryRefresh s lid).1 lid).1 = (queryRefresh s lid).1 := by
  by_cases h : (getList s lid).dirty
  · have hrun := queryRefresh_dirty_run s lid h
    have hafter : (getList (queryRefresh s lid).1 lid).dirty = false := by
      rw [getList_queryRefresh_dirty s lid hl h]
    have h2 := queryRefresh_clean_run (queryRefresh s lid).1 lid hafter
    refine ⟨by rw [hrun]; exact h.symm,
      fun _ => ⟨by rw [hrun], by rw [hrun], by rw [hrun], by rw [hrun]⟩,
      fun hf => absurd h (by simp [hf]), by rw [h2], by rw [h2]⟩
  · have hf : (getList s lid).dirty = false := by simpa using h
    have hrun := queryRefresh_clean_run s lid hf
    have h2 := queryRefresh_clean_run (queryRefresh s lid).1 lid (by rw [hrun]; exact hf)
    exact ⟨by rw [hrun]; exact hf.symm, fun ht => absurd ht (by simp [hf]),
      fun _ => by rw [hrun], by rw [h2], by rw [h2]⟩

/-- Witness for `queryRefresh_flushes_exactly_when_dirty` on a one-list heap
holding a dirty list whose tree holds one match. -/
theorem queryRefresh_flushes_exactly_when_dirty_witness :
    (queryRefresh (oneListState true) 0).2 = true
    ∧ (queryRefresh (queryRefresh (oneListState true) 0).1 0).2 = false := by
  have h := queryRefresh_flushes_exactly_when_dirty (oneListState true) 0 (by decide)
  exact ⟨by rw [h.1]; rfl, h.2.2.2.1⟩

/-- C1: `removeView(index)` is the per-predicate removal step folded over
the tracker's deep chain; for each deep predicate whose values array holds
the view slice `aid` at `index`, the step removes exactly that entry from
the values array, marks the predicate's target list dirty when the slice
was non-empty (in particular whenever its flattening holds at least one
matched value), and leaves the whole list heap — hence the target's dirty
flag, false staying false — unchanged when the slice was empty.  The
hypothesis `aid ≠ p.values` is the acyclicity of the value tree: a view
slice pushed by `enterView` is always a strictly younger array than the
array it is inserted into. -/
theorem removeView_minimal_invalidation :
    (∀ dev s tid index, removeView dev s tid index
        = removeViewChain dev index s (getTracker s tid).deep)
    ∧ (∀ dev index s p aid,
        (getArray s p.values)[index]? = some (TreeVal.arr aid) →
        aid ≠ p.values →
        p.list < s.lists.length →
        ∃ s', removeViewStep dev index s p = .ok s'
          ∧ getArray s' p.values = (getArray s p.values).eraseIdx index
          ∧ s'.trackers = s.trackers
          ∧ (getArray s aid ≠ [] → (getList s' p.list).dirty = true)
          ∧ (flattenTree s.arrays aid ≠ [] → (getList s' p.list).dirty = true)
          ∧ (getArray s aid = [] → s'.lists = s.lists)) := by
  constructor
  · intro dev s tid index
    rfl
  · intro dev index s p aid hentry haid hlist
    have hpv : p.values < s.arrays.length := getArray_pos_of_entry s p.values index _ hentry
    have hgetaid : getArray (setArray s p.values ((getArray s p.values).eraseIdx index)) aid
        = getArray s aid := getArray_setArray_ne s p.values aid _ (Ne.symm haid)
    by_cases hb : ((getArray s aid).length != 0) = true
    · have hstep : removeViewStep dev index s p
          = .ok (setDirty (setArray s p.values ((getArray s p.values).eraseIdx index)) p.list) := by
        simp [removeViewStep, hentry, hgetaid, hb]
      have hdirty : (getList (setDirty (setArray s p.values
          ((getArray s p.values).eraseIdx index)) p.list) p.list).dirty = true := by
        rw [getList_setDirty_self _ p.list (by simpa [setArray] using hlist)]
      refine ⟨_, hstep, ?_, rfl, fun _ => hdirty, fun _ => hdirty, fun he => ?_⟩
      · rw [getArray_setDirty]
        exact getArray_setArray_self s p.values _ hpv
      · rw [he] at hb
        simp at hb
    · have hempty : getArray s aid = [] := by
        rw [← List.length_eq_zero]
        simpa using hb
      have hstep : removeViewStep dev index s p
          = .ok (setArray s p.values ((getArray s p.values).eraseIdx index)) := by
        simp [removeViewStep, hentry, hgetaid, hempty]
      refine ⟨_, hstep, getArray_setArray_self s p.values _ hpv, rfl,
        fun hne => absurd hempty hne, fun hfl => ?_, fun _ => rfl⟩
      · exact absurd (flattenTree_of_empty s aid hempty) hfl

/-- Witness for `removeView_minimal_invalidation`: on `oneSliceState`,
removing index 0 removes the slice `arr 1` (which holds a matched value)
and marks list 0 dirty. -/
theorem removeView_minimal_invalidation_witness :
    ∃ s', removeViewStep false 0 oneSliceState (mkTypePred 0 7 0) = .ok s'
      ∧ getArray s' (mkTypePred 0 7 0).values
          = (getArray oneSliceState (mkTypePred 0 7 0).values).eraseIdx 0
      ∧ s'.trackers = oneSliceState.trackers
      ∧ (getArray oneSliceState 1 ≠ [] → (getList s' 0).dirty = true)
      ∧ (flattenTree oneSliceState.arrays 1 ≠ [] → (getList s' 0).dirty = true)
      ∧ (getArray oneSliceState 1 = [] → s'.lists = oneSliceState.lists) :=
  removeView_minimal_invalidation.2 false 0 oneSliceState (mkTypePred 0 7 0) 1
    (by decide) (by decide) (by decide)

/-- C3: a `BySelector` predicate with no read strategy, evaluated against a
node whose local-name table matches one of its selector names, aborts
loudly in a dev build (`assertNotNull(predicate.read)`) instead of silently
matching nothing, while a production build skips the check entirely and the
evaluation succeeds without appending anything (the heap is returned
unchanged). -/
theorem selector_without_read_fails_fast (s : QState) (p : Pred) (node : LNode)
    (tn : TNode) (sel : List String)
    (htype : p.type = none) (hsel : p.selector = some sel) (hread : p.read = none)
    (htn : node.tNode = some tn)
    (hmatch : ∃ name ∈ sel, (getIdxOfMatchingSelector tn name).isSome = true) :
    add true s [p] node = .error "assertNotNull: predicate.read"
    ∧ add false s [p] node = .ok s := by
  constructor
  · rw [add_singleton]
    simp only [addPred, htype, hsel]
    exact addSelectorLoop_dev_missing_read p node tn hread htn sel s hmatch
  · rw [add_singleton]
    simp only [addPred, htype, hsel]
    exact addSelectorLoop_prod_missing_read p node tn hread htn sel s

/-- Witness for `selector_without_read_fails_fast`: a selector predicate on
the name `ref` with no read strategy, against a node whose `localNames`
binds `ref` to the element sentinel `-1`. -/
theorem selector_without_read_fails_fast_witness :
    add true emptyState
        [{ list := 0, type := none, selector := some ["ref"], read := none, values := 0 }]
        { tData := [], viewData := [], flagsIdx := 0, flagsSize := 0,
          tNode := some ⟨some [("ref", -1)]⟩ }
      = .error "assertNotNull: predicate.read"
    ∧ add false emptyState
        [{ list := 0, type := none, selector := some ["ref"], read := none, values := 0 }]
        { tData := [], viewData := [], flagsIdx := 0, flagsSize := 0,
          tNode := some ⟨some [("ref", -1)]⟩ }
      = .ok emptyState :=
  selector_without_read_fails_fast emptyState
    { list := 0, type := none, selector := some ["ref"], read := none, values := 0 }
    { tData := [], viewData := [], flagsIdx := 0, flagsSize := 0,
      tNode := some ⟨some [("ref", -1)]⟩ }
    ⟨some [("ref", -1)]⟩ ["ref"] rfl rfl rfl rfl (by decide)

/-- C9: a `ByType` predicate without an explicit read strategy that matches
a node resolves its value by re-scanning the node's directive table for the
predicate's own type (the same scan, hence the same position `i`) and
reading the stored instance at that position; and for any predicate, a read
resolution that yields null appends nothing and dirties nothing — the
`ByType` case returns the heap unchanged, and so does the `BySelector` case
when every matching name resolves to null. -/
theorem byType_default_read_and_null_resolution :
    (∀ dev s p node t i,
        p.type = some t → p.read = none →
        geIdxOfMatchingDirective node (some t) = some i →
        addPred dev s p node
          = .ok (match readInstance node i with
                 | some v => addMatch s p v
                 | none => s))
    ∧ (∀ dev s p node t i,
        p.type = some t →
        geIdxOfMatchingDirective node (some t) = some i →
        readFromNodeInjector node (some (p.read.getD (.byType t))) (Int.ofNat i) = none →
        addPred dev s p node = .ok s)
    ∧ (∀ dev s p node tn sel r,
        p.type = none → p.selector = some sel → p.read = some r →
        node.tNode = some tn →
        (∀ name ∈ sel, ∀ j, getIdxOfMatchingSelector tn name = some j →
            readFromNodeInjector node p.read j = none) →
        addPred dev s p node = .ok s) := by
  refine ⟨?_, ?_, ?_⟩
  · intro dev s p node t i htype hread hidx
    simp only [addPred, htype, hidx, hread, Option.getD_none, readFromNodeInjector]
    cases readInstance node i <;> rfl
  · intro dev s p node t i htype hidx hnull
    simp only [addPred, htype, hidx, hnull]
  · intro dev s p node tn sel r htype hsel hr htn hall
    simp only [addPred, htype, hsel]
    exact addSelectorLoop_all_null dev p node tn r hr htn sel s hall

/-- Witness for `byType_default_read_and_null_resolution`: a `ByType 5`
predicate with no read strategy against a node holding a type-5 directive
instance at position 0. -/
theorem byType_default_read_and_null_resolution_witness :
    addPred false (oneListState false) (mkTypePred 0 5 0) (mkNode 5 42)
      = .ok (match readInstance (mkNode 5 42) 0 with
             | some v => addMatch (oneListState false) (mkTypePred 0 5 0) v
             | none => oneListState false) :=
  byType_default_read_and_null_resolution.1 false (oneListState false)
    (mkTypePred 0 5 0) (mkNode 5 42) 5 0 rfl rfl (by decide)

/-- C4 fails on the code: when `child()` reuses the parent tracker (deep
chain non-empty, shallow chain empty), a shallow predicate registered via
`track` through the child handle lands on the shared tracker object, so a
node subsequently added through the *parent* handle is matched against it
(value tree `[42]`, list dirtied); had `child()` returned a fresh tracker
carrying the same deep chain, the predicate would have stayed in the child
scope and the parent's `addNode` would have matched nothing (value tree
`[]`).  This is the aliasing bug acknowledged by the source's own TODO in
`track` ("in case of inherited state, a calling track will incorrectly
mutate parent"). -/
theorem child_reuse_observably_differs :
    childReuseTrackRun = some [TreeVal.val 42]
    ∧ childCloneTrackRun = some [] := by
  exact ⟨rfl, rfl⟩

/-- C5 fails on the code for the same aliasing reason, in the mirrored
direction: after `child()` reuses the parent tracker, a shallow predicate
registered at the parent scope sits on the very tracker object serving the
child scope, so a node created in the child scope is matched against it
(value tree `[42]`); with the spec's always-clone `child()` the descendant
tracker carries only the deep chain and the node matches nothing (value
tree `[]`). -/
theorem shallow_predicate_leaks_into_child_scope :
    childReuseShallowLeakRun = some [TreeVal.val 42]
    ∧ childCloneShallowLeakRun = some [] := by
  exact ⟨rfl, rfl⟩

/-! ### The container / enterView cloning loops -/

theorem mem_of_getElem_opt {α : Type _} {l : List α} {k : Nat} {a : α}
    (h : l[k]? = some a) : a ∈ l := by
  obtain ⟨hlt, rfl⟩ := List.getElem?_eq_some.mp h
  exact List.getElem_mem hlt

theorem arrays_length_extend (s : QState) (x : List TreeVal) :
    ({ s with arrays := s.arrays ++ [x] } : QState).arrays.length
      = s.arrays.length + 1 := by
  simp

theorem arrays_length_push (s : QState) (pv : Nat) (a : List TreeVal) :
    ((setArray { s with arrays := s.arrays ++ [[]] } pv a).arrays).length
      = s.arrays.length + 1 := by
  simp [setArray]

theorem containerLoop_arrays_length (chain : List Pred) :
    ∀ s acc, ((containerLoop s chain acc).1).arrays.length
      = s.arrays.length + chain.length := by
  induction chain with
  | nil => intro s acc; rfl
  | cons p rest ih =>
    intro s acc
    simp only [containerLoop]
    rw [ih, arrays_length_push]
    simp only [List.length_cons]
    omega

theorem containerLoop_trackers (chain : List Pred) :
    ∀ s acc, ((containerLoop s chain acc).1).trackers = s.trackers := by
  induction chain with
  | nil => intro s acc; rfl
  | cons p rest ih =>
    intro s acc
    simp only [containerLoop]
    rw [ih]
    rfl

theorem containerLoop_frame (chain : List Pred) :
    ∀ s acc q, q < s.arrays.length → q ∉ chain.map Pred.values →
      getArray ((containerLoop s chain acc).1) q = getArray s q := by
  induction chain with
  | nil => intro s acc q _ _; rfl
  | cons p rest ih =>
    intro s acc q hq hnot
    simp only [List.map_cons, List.mem_cons, not_or] at hnot
    obtain ⟨hqp, hnot'⟩ := hnot
    simp only [containerLoop]
    rw [ih _ _ q (by rw [arrays_length_push]; omega) hnot']
    rw [getArray_setArray_ne _ p.values q _ (fun e => hqp e.symm)]
    exact getArray_extend s [] q hq

theorem containerLoop_effect (chain : List Pred) :
    ∀ s acc k p, (chain.map Pred.values).Nodup →
      (∀ q ∈ chain, q.values < s.arrays.length) →
      chain[k]? = some p →
      getArray ((containerLoop s chain acc).1) p.values
        = getArray s p.values ++ [TreeVal.arr (s.arrays.length + k)] := by
  induction chain with
  | nil =>
    intro s acc k p _ _ h
    simp at h
  | cons p0 rest ih =>
    intro s acc k p hnodup hwf hk
    have hp0 : p0.values < s.arrays.length := hwf p0 (List.mem_cons_self _ _)
    simp only [List.map_cons, List.nodup_cons] at hnodup
    cases k with
    | zero =>
      rw [List.getElem?_cons_zero] at hk
      have hp : p = p0 := by
        injection hk with h
        exact h.symm
      subst hp
      simp only [containerLoop]
      rw [containerLoop_frame rest _ _ p.values (by rw [arrays_length_push]; omega) hnodup.1]
      rw [getArray_setArray_self _ p.values _ (by rw [arrays_length_extend]; omega)]
      rw [getArray_extend s [] p.values hp0]
      simp
    | succ k =>
      simp only [containerLoop]
      rw [List.getElem?_cons_succ] at hk
      have hpmem : p ∈ rest := mem_of_getElem_opt hk
      have hwf' : ∀ q ∈ rest, q.values
          < ((setArray { s with arrays := s.arrays ++ [[]] } p0.values
              (getArray { s with arrays := s.arrays ++ [[]] } p0.values
                ++ [TreeVal.arr s.arrays.length])).arrays).length := by
        intro q hq
        rw [arrays_length_push]
        have := hwf q (List.mem_cons_of_mem _ hq)
        omega
      rw [ih _ _ k p hnodup.2 hwf' hk]
      have hpv : p.values < s.arrays.length := hwf p (List.mem_cons_of_mem _ hpmem)
      have hppv : p0.values ≠ p.values := by
        intro e
        exact hnodup.1 (e ▸ List.mem_map_of_mem Pred.values hpmem)
      rw [getArray_setArray_ne _ p0.values p.values _ hppv]
      rw [getArray_extend s [] p.values hpv]
      rw [arrays_length_push]
      have e : s.arrays.length + 1 + k = s.arrays.length + (k + 1) := by omega
      rw [e]

theorem containerLoop_fresh_empty (chain : List Pred) :
    ∀ s acc k, (∀ q ∈ chain, q.values < s.arrays.length) → k < chain.length →
      getArray ((containerLoop s chain acc).1) (s.arrays.length + k) = [] := by
  induction chain with
  | nil =>
    intro s acc k _ hk
    simp at hk
  | cons p0 rest ih =>
    intro s acc k hwf hk
    have hp0 : p0.values < s.arrays.length := hwf p0 (List.mem_cons_self _ _)
    cases k with
    | zero =>
      simp only [containerLoop]
      rw [containerLoop_frame rest _ _ (s.arrays.length + 0)
        (by rw [arrays_length_push]; omega)
        (by
          intro hmem
          obtain ⟨q, hq, he⟩ := List.mem_map.mp hmem
          have := hwf q (List.mem_cons_of_mem _ hq)
          omega)]
      rw [getArray_setArray_ne _ p0.values (s.arrays.length + 0) _ (by omega)]
      simpa using getArray_extend_fresh s []
    | succ k =>
      simp only [containerLoop]
      have hwf' : ∀ q ∈ rest, q.values
          < ((setArray { s with arrays := s.arrays ++ [[]] } p0.values
              (getArray { s with arrays := s.arrays ++ [[]] } p0.values
                ++ [TreeVal.arr s.arrays.length])).arrays).length := by
        intro q hq
        rw [arrays_length_push]
        have := hwf q (List.mem_cons_of_mem _ hq)
        omega
      have hk' : k < rest.length := by
        simpa using hk
      have hfresh := ih _ ({ p0 with values := s.arrays.length } :: acc) k hwf' hk'
      rw [arrays_length_push] at hfresh
      have e : s.arrays.length + 1 + k = s.arrays.length + (k + 1) := by omega
      rw [e] at hfresh
      exact hfresh

theorem containerLoop_clones_mem (chain : List Pred) :
    ∀ s acc c, c ∈ (containerLoop s chain acc).2 →
      c ∈ acc ∨ (s.arrays.length ≤ c.values
        ∧ c.values < s.arrays.length + chain.length) := by
  induction chain with
  | nil =>
    intro s acc c h
    exact Or.inl h
  | cons p0 rest ih =>
    intro s acc c h
    simp only [containerLoop] at h
    rcases ih _ _ c h with hacc | ⟨hle, hlt⟩
    · rcases List.mem_cons.mp hacc with heq | hacc'
      · right
        have hv : c.values = s.arrays.length := by rw [heq]
        rw [hv]
        simp only [List.length_cons]
        omega
      · exact Or.inl hacc'
    · right
      rw [arrays_length_push] at hle hlt
      simp only [List.length_cons]
      omega

theorem containerLoop_clones_list (chain : List Pred) :
    ∀ s acc, ((containerLoop s chain acc).2).map Pred.list
      = (chain.map Pred.list).reverse ++ acc.map Pred.list := by
  induction chain with
  | nil => intro s acc; simp [containerLoop]
  | cons p0 rest ih =>
    intro s acc
    simp only [containerLoop]
    rw [ih]
    simp

theorem containerLoop_clones_length (chain : List Pred) :
    ∀ s acc, ((containerLoop s chain acc).2).length = chain.length + acc.length := by
  induction chain with
  | nil => intro s acc; simp [containerLoop]
  | cons p0 rest ih =>
    intro s acc
    simp only [containerLoop]
    rw [ih]
    simp only [List.length_cons]
    omega

theorem enterViewLoop_frame (index : Nat) (chain : List Pred) :
    ∀ s acc q, q < s.arrays.length → q ∉ chain.map Pred.values →
      getArray ((enterViewLoop index s chain acc).1) q = getArray s q := by
  induction chain with
  | nil => intro s acc q _ _; rfl
  | cons p rest ih =>
    intro s acc q hq hnot
    simp only [List.map_cons, List.mem_cons, not_or] at hnot
    obtain ⟨hqp, hnot'⟩ := hnot
    simp only [enterViewLoop]
    rw [ih _ _ q (by rw [arrays_length_push]; omega) hnot']
    rw [getArray_setArray_ne _ p.values q _ (fun e => hqp e.symm)]
    exact getArray_extend s [] q hq

theorem enterViewLoop_effect (index : Nat) (chain : List Pred) :
    ∀ s acc k p, (chain.map Pred.values).Nodup →
      (∀ q ∈ chain, q.values < s.arrays.length) →
      chain[k]? = some p →
      getArray ((enterViewLoop index s chain acc).1) p.values
        = spliceInsert (getArray s p.values) index
            (TreeVal.arr (s.arrays.length + k)) := by
  induction chain with
  | nil =>
    intro s acc k p _ _ h
    simp at h
  | cons p0 rest ih =>
    intro s acc k p hnodup hwf hk
    have hp0 : p0.values < s.arrays.length := hwf p0 (List.mem_cons_self _ _)
    simp only [List.map_cons, List.nodup_cons] at hnodup
    cases k with
    | zero =>
      rw [List.getElem?_cons_zero] at hk
      have hp : p = p0 := by
        injection hk with h
        exact h.symm
      subst hp
      simp only [enterViewLoop]
      rw [enterViewLoop_frame index rest _ _ p.values (by rw [arrays_length_push]; omega)
        hnodup.1]
      rw [getArray_setArray_self _ p.values _ (by rw [arrays_length_extend]; omega)]
      rw [getArray_extend s [] p.values hp0]
      simp
    | succ k =>
      simp only [enterViewLoop]
      rw [List.getElem?_cons_succ] at hk
      have hpmem : p ∈ rest := mem_of_getElem_opt hk
      have hwf' : ∀ q ∈ rest, q.values
          < ((setArray { s with arrays := s.arrays ++ [[]] } p0.values
              (spliceInsert (getArray { s with arrays := s.arrays ++ [[]] } p0.values)
                index (TreeVal.arr s.arrays.length))).arrays).length := by
        intro q hq
        rw [arrays_length_push]
        have := hwf q (List.mem_cons_of_mem _ hq)
        omega
      rw [ih _ _ k p hnodup.2 hwf' hk]
      have hpv : p.values < s.arrays.length := hwf p (List.mem_cons_of_mem _ hpmem)
      have hppv : p0.values ≠ p.values := by
        intro e
        exact hnodup.1 (e ▸ List.mem_map_of_mem Pred.values hpmem)
      rw [getArray_setArray_ne _ p0.values p.values _ hppv]
      rw [getArray_extend s [] p.values hpv]
      rw [arrays_length_push]
      have e : s.arrays.length + 1 + k = s.arrays.length + (k + 1) := by omega
      rw [e]

theorem enterViewLoop_fresh_empty (index : Nat) (chain : List Pred) :
    ∀ s acc k, (∀ q ∈ chain, q.values < s.arrays.length) → k < chain.length →
      getArray ((enterViewLoop index s chain acc).1) (s.arrays.length + k) = [] := by
  induction chain with
  | nil =>
    intro s acc k _ hk
    simp at hk
  | cons p0 rest ih =>
    intro s acc k hwf hk
    have hp0 : p0.values < s.arrays.length := hwf p0 (List.mem_cons_self _ _)
    cases k with
    | zero =>
      simp only [enterViewLoop]
      rw [enterViewLoop_frame index rest _ _ (s.arrays.length + 0)
        (by rw [arrays_length_push]; omega)
        (by
          intro hmem
          obtain ⟨q, hq, he⟩ := List.mem_map.mp hmem
          have := hwf q (List.mem_cons_of_mem _ hq)
          omega)]
      rw [getArray_setArray_ne _ p0.values (s.arrays.length + 0) _ (by omega)]
      simpa using getArray_extend_fresh s []
    | succ k =>
      simp only [enterViewLoop]
      have hwf' : ∀ q ∈ rest, q.values
          < ((setArray { s with arrays := s.arrays ++ [[]] } p0.values
              (spliceInsert (getArray { s with arrays := s.arrays ++ [[]] } p0.values)
                index (TreeVal.arr s.arrays.length))).arrays).length := by
        intro q hq
        rw [arrays_length_push]
        have := hwf q (List.mem_cons_of_mem _ hq)
        omega
      have hk' : k < rest.length := by
        simpa using hk
      have hfresh := ih _ ({ p0 with values := s.arrays.length } :: acc) k hwf' hk'
      rw [arrays_length_push] at hfresh
      have e : s.arrays.length + 1 + k = s.arrays.length + (k + 1) := by omega
      rw [e] at hfresh
      exact hfresh

/-- The arrays of the state returned by `container` are those of its loop:
the optional fresh tracker touches only the tracker heap. -/
theorem getArray_container (s : QState) (tid q : Nat) :
    getArray (container s tid).1 q
      = getArray (containerLoop s (getTracker s tid).deep []).1 q := by
  rcases hloop : containerLoop s (getTracker s tid).deep [] with ⟨S, C⟩
  simp only [container, hloop]
  cases C with
  | nil => rfl
  | cons c cs => rfl

/-- Likewise for `enterView`. -/
theorem getArray_enterView (s : QState) (tid index q : Nat) :
    getArray (enterView s tid index).1 q
      = getArray (enterViewLoop index s (getTracker s tid).deep []).1 q := by
  rcases hloop : enterViewLoop index s (getTracker s tid).deep [] with ⟨S, C⟩
  simp only [enterView, hloop]
  cases C with
  | nil => rfl
  | cons c cs => rfl

/-- C7: `enterView(index)` gives the `k`-th deep predicate a fresh empty
array (id `s.arrays.length + k`) *inserted* at ordinal `index` of its
values array (`spliceInsert`), where `container()` instead appends the
fresh array at the end; consequently flattening orders matched values by
final view position: the two ordering runs issue their `enterView` calls in
opposite orders yet both flatten to `[100, 200]`, ascending in view
index. -/
theorem enterView_inserts_at_index :
    (∀ s tid index k p,
        ((getTracker s tid).deep.map Pred.values).Nodup →
        (∀ q ∈ (getTracker s tid).deep, q.values < s.arrays.length) →
        ((getTracker s tid).deep)[k]? = some p →
        getArray (enterView s tid index).1 p.values
          = spliceInsert (getArray s p.values) index
              (TreeVal.arr (s.arrays.length + k))
        ∧ getArray (enterView s tid index).1 (s.arrays.length + k) = [])
    ∧ (∀ s tid k p,
        ((getTracker s tid).deep.map Pred.values).Nodup →
        (∀ q ∈ (getTracker s tid).deep, q.values < s.arrays.length) →
        ((getTracker s tid).deep)[k]? = some p →
        getArray (container s tid).1 p.values
          = getArray s p.values ++ [TreeVal.arr (s.arrays.length + k)])
    ∧ orderingRunA = some [100, 200] ∧ orderingRunB = some [100, 200] := by
  refine ⟨?_, ?_, rfl, rfl⟩
  · intro s tid index k p hnodup hwf hk
    constructor
    · rw [getArray_enterView]
      exact enterViewLoop_effect index _ s [] k p hnodup hwf hk
    · rw [getArray_enterView]
      exact enterViewLoop_fresh_empty index _ s [] k hwf (List.getElem?_eq_some.mp hk).1
  · intro s tid k p hnodup hwf hk
    rw [getArray_container]
    exact containerLoop_effect _ s [] k p hnodup hwf hk

/-- Witness for `enterView_inserts_at_index` on `deepTrackerState`:
entering a view at index 0 splices the fresh empty array 1 into the
predicate's value tree. -/
theorem enterView_inserts_at_index_witness :
    getArray (enterView deepTrackerState 0 0).1 (mkTypePred 0 5 0).values
      = spliceInsert (getArray deepTrackerState (mkTypePred 0 5 0).values) 0
          (TreeVal.arr (deepTrackerState.arrays.length + 0))
    ∧ getArray (enterView deepTrackerState 0 0).1 (deepTrackerState.arrays.length + 0) = [] :=
  enterView_inserts_at_index.1 deepTrackerState 0 0 0 (mkTypePred 0 5 0)
    (by decide) (by decide) rfl

/-! ### removeView frame lemmas -/

theorem removeViewStep_entry_none (dev : Bool) (index : Nat) (s : QState) (p : Pred)
    (hrem : (getArray s p.values)[index]? = none) :
    ∃ e, removeViewStep dev index s p = .error e := by
  cases dev <;> simp [removeViewStep, hrem]

theorem removeViewStep_entry_val (dev : Bool) (index : Nat) (s : QState) (p : Pred)
    (v : Val) (hrem : (getArray s p.values)[index]? = some (TreeVal.val v)) :
    removeViewStep dev index s p
      = .ok (setArray s p.values ((getArray s p.values).eraseIdx index)) := by
  simp [removeViewStep, hrem]

theorem removeViewStep_entry_arr (dev : Bool) (index : Nat) (s : QState) (p : Pred)
    (aid : Nat) (hrem : (getArray s p.values)[index]? = some (TreeVal.arr aid)) :
    removeViewStep dev index s p
      = .ok (if (getArray (setArray s p.values
              ((getArray s p.values).eraseIdx index)) aid).length != 0
          then setDirty (setArray s p.values
              ((getArray s p.values).eraseIdx index)) p.list
          else setArray s p.values ((getArray s p.values).eraseIdx index)) := by
  simp [removeViewStep, hrem]

theorem removeViewStep_ok_frame (dev : Bool) (index : Nat) (s : QState) (p : Pred)
    (s' : QState) (h : removeViewStep dev index s p = .ok s') (q : Nat)
    (hq : q ≠ p.values) : getArray s' q = getArray s q := by
  cases hrem : (getArray s p.values)[index]? with
  | none =>
    obtain ⟨e, he⟩ := removeViewStep_entry_none dev index s p hrem
    rw [he] at h
    simp at h
  | some tv =>
    cases tv with
    | val v =>
      rw [removeViewStep_entry_val dev index s p v hrem] at h
      injection h with h
      rw [← h]
      exact getArray_setArray_ne s p.values q _ (fun e => hq e.symm)
    | arr aid =>
      rw [removeViewStep_entry_arr dev index s p aid hrem] at h
      injection h with h
      rw [← h]
      split
      · rw [getArray_setDirty]
        exact getArray_setArray_ne s p.values q _ (fun e => hq e.symm)
      · exact getArray_setArray_ne s p.values q _ (fun e => hq e.symm)

theorem removeViewChain_ok_frame (dev : Bool) (index : Nat) :
    ∀ chain s s', removeViewChain dev index s chain = .ok s' →
      ∀ q, q ∉ chain.map Pred.values → getArray s' q = getArray s q := by
  intro chain
  induction chain with
  | nil =>
    intro s s' h q _
    injection h with h
    rw [h]
  | cons p rest ih =>
    intro s s' h q hq
    simp only [List.map_cons, List.mem_cons, not_or] at hq
    obtain ⟨hqp, hq'⟩ := hq
    simp only [removeViewChain] at h
    cases hstep : removeViewStep dev index s p with
    | error e =>
      rw [hstep] at h
      simp at h
    | ok s1 =>
      rw [hstep] at h
      rw [ih s1 s' h q hq']
      exact removeViewStep_ok_frame dev index s p s1 hstep q hqp

theorem getTracker_of_trackers_eq (s s' : QState) (h : s'.trackers = s.trackers)
    (i : Nat) : getTracker s' i = getTracker s i := by
  simp [getTracker, h]

/-- Reduction of `container` on a tracker with a non-empty deep chain. -/
theorem container_run (s : QState) (tid : Nat) (hne : (getTracker s tid).deep ≠ []) :
    container s tid
      = ({ (containerLoop s (getTracker s tid).deep []).1 with
            trackers := (containerLoop s (getTracker s tid).deep []).1.trackers
              ++ [{ shallow := [],
                    deep := (containerLoop s (getTracker s tid).deep []).2 }] },
         some (containerLoop s (getTracker s tid).deep []).1.trackers.length) := by
  have hlen := containerLoop_clones_length (getTracker s tid).deep s []
  rcases hloop : containerLoop s (getTracker s tid).deep [] with ⟨S, C⟩
  rw [hloop] at hlen
  simp only [container, hloop]
  cases hC : C with
  | nil =>
    rw [hC] at hlen
    simp at hlen
    exact absurd (List.length_eq_zero.mp hlen.symm) hne
  | cons c cs => rfl

/-- C6: two `container()` calls on the same tracker allocate two fresh
trackers (ids `s.trackers.length` and `s.trackers.length + 1`) whose deep
clone chains target the same lists as the parent chain (both are its
reversal), but own pairwise disjoint values arrays; hence a match appended
through one clone never lands in the other clone's leaf, and `removeView`
through one container's tracker (from any later state with the same tracker
heap) never alters the arrays holding the other container's matches. -/
theorem container_clones_disjoint_private_trees (s : QState) (tid : Nat)
    (s1 s2 : QState) (chain1 chain2 : List Pred)
    (htid : tid < s.trackers.length)
    (hne : (getTracker s tid).deep ≠ [])
    (hs1 : s1 = (container s tid).1)
    (hs2 : s2 = (container s1 tid).1)
    (hchain1 : chain1 = (getTracker s2 s.trackers.length).deep)
    (hchain2 : chain2 = (getTracker s2 (s.trackers.length + 1)).deep) :
    (container s tid).2 = some s.trackers.length
    ∧ (container s1 tid).2 = some (s.trackers.length + 1)
    ∧ chain1.map Pred.list = ((getTracker s tid).deep.map Pred.list).reverse
    ∧ chain2.map Pred.list = ((getTracker s tid).deep.map Pred.list).reverse
    ∧ (∀ v1 ∈ chain1.map Pred.values, ∀ v2 ∈ chain2.map Pred.values, v1 ≠ v2)
    ∧ (∀ s' p1 v q, p1 ∈ chain1 → q ∈ chain2.map Pred.values →
        getArray (addMatch s' p1 v) q = getArray s' q)
    ∧ (∀ s' p2 v q, p2 ∈ chain2 → q ∈ chain1.map Pred.values →
        getArray (addMatch s' p2 v) q = getArray s' q)
    ∧ (∀ dev index s' s3, s'.trackers = s2.trackers →
        removeView dev s' s.trackers.length index = .ok s3 →
        ∀ q ∈ chain2.map Pred.values, getArray s3 q = getArray s' q)
    ∧ (∀ dev index s' s3, s'.trackers = s2.trackers →
        removeView dev s' (s.trackers.length + 1) index = .ok s3 →
        ∀ q ∈ chain1.map Pred.values, getArray s3 q = getArray s' q) := by
  have hrun1 := container_run s tid hne
  have htr1 : (containerLoop s (getTracker s tid).deep []).1.trackers = s.trackers :=
    containerLoop_trackers (getTracker s tid).deep s []
  have htrs1 : s1.trackers
      = s.trackers ++ [⟨[], (containerLoop s (getTracker s tid).deep []).2⟩] := by
    rw [hs1, hrun1, htr1]
  have hgt1 : getTracker s1 tid = getTracker s tid := by
    simp [getTracker, htrs1, List.getElem?_append, htid]
  have hlen1 : s1.arrays.length = s.arrays.length + (getTracker s tid).deep.length := by
    rw [hs1, hrun1]
    exact containerLoop_arrays_length (getTracker s tid).deep s []
  have hne2 : (getTracker s1 tid).deep ≠ [] := by
    rw [hgt1]
    exact hne
  have hrun2 := container_run s1 tid hne2
  have htr2 : (containerLoop s1 (getTracker s1 tid).deep []).1.trackers = s1.trackers :=
    containerLoop_trackers (getTracker s1 tid).deep s1 []
  have htrs2 : s2.trackers
      = s1.trackers ++ [⟨[], (containerLoop s1 (getTracker s1 tid).deep []).2⟩] := by
    rw [hs2, hrun2, htr2]
  have hc1 : (container s tid).2 = some s.trackers.length := by
    rw [hrun1, htr1]
  have hc2 : (container s1 tid).2 = some (s.trackers.length + 1) := by
    rw [hrun2, htr2, htrs1]
    simp
  have hT1 : getTracker s2 s.trackers.length
      = ⟨[], (containerLoop s (getTracker s tid).deep []).2⟩ := by
    rw [getTracker, htrs2, htrs1]
    rw [List.getElem?_append]
    simp [List.getElem?_concat_length]
  have hx : (s.trackers
      ++ [(⟨[], (containerLoop s (getTracker s tid).deep []).2⟩ : Tracker)]).length
      = s.trackers.length + 1 := by
    simp
  have hT2 : getTracker s2 (s.trackers.length + 1)
      = ⟨[], (containerLoop s1 (getTracker s1 tid).deep []).2⟩ := by
    rw [getTracker, htrs2, htrs1, ← hx, List.getElem?_concat_length]
    rfl
  have hchain1' : chain1 = (containerLoop s (getTracker s tid).deep []).2 := by
    rw [hchain1, hT1]
  have hchain2' : chain2 = (containerLoop s1 (getTracker s1 tid).deep []).2 := by
    rw [hchain2, hT2]
  have hmem1 : ∀ c ∈ chain1, s.arrays.length ≤ c.values
      ∧ c.values < s.arrays.length + (getTracker s tid).deep.length := by
    intro c hc
    rw [hchain1'] at hc
    rcases containerLoop_clones_mem (getTracker s tid).deep s [] c hc with h | h
    · simp at h
    · exact h
  have hmem2 : ∀ c ∈ chain2,
      s.arrays.length + (getTracker s tid).deep.length ≤ c.values := by
    intro c hc
    rw [hchain2'] at hc
    rcases containerLoop_clones_mem (getTracker s1 tid).deep s1 [] c hc with h | h
    · simp at h
    · rw [hlen1] at h
      exact h.1
  have hdisj : ∀ v1 ∈ chain1.map Pred.values, ∀ v2 ∈ chain2.map Pred.values,
      v1 ≠ v2 := by
    intro v1 h1 v2 h2
    obtain ⟨c1, hc1', rfl⟩ := List.mem_map.mp h1
    obtain ⟨c2, hc2', rfl⟩ := List.mem_map.mp h2
    have b1 := hmem1 c1 hc1'
    have b2 := hmem2 c2 hc2'
    omega
  refine ⟨hc1, hc2, ?_, ?_, hdisj, ?_, ?_, ?_, ?_⟩
  · rw [hchain1', containerLoop_clones_list]
    simp
  · rw [hchain2', containerLoop_clones_list, hgt1]
    simp
  · intro s' p1 v q hp1 hq
    exact getArray_addMatch_ne s' p1 v q
      (hdisj p1.values (List.mem_map_of_mem Pred.values hp1) q hq).symm
  · intro s' p2 v q hp2 hq
    exact getArray_addMatch_ne s' p2 v q
      (hdisj q hq p2.values (List.mem_map_of_mem Pred.values hp2))
  · intro dev index s' s3 htr hrm q hq
    simp only [removeView] at hrm
    rw [getTracker_of_trackers_eq s2 s' htr, hT1] at hrm
    refine removeViewChain_ok_frame dev index _ s' s3 hrm q ?_
    intro hqmem
    rw [← hchain1'] at hqmem
    exact hdisj q hqmem q hq rfl
  · intro dev index s' s3 htr hrm q hq
    simp only [removeView] at hrm
    rw [getTracker_of_trackers_eq s2 s' htr, hT2] at hrm
    refine removeViewChain_ok_frame dev index _ s' s3 hrm q ?_
    intro hqmem
    rw [← hchain2'] at hqmem
    exact hdisj q hq q hqmem rfl

/-- Witness for `container_clones_disjoint_private_trees` on
`deepTrackerState`: two containers get tracker ids 1 and 2, and their clone
chains' values arrays are disjoint. -/
theorem container_clones_disjoint_private_trees_witness :
    (container deepTrackerState 0).2 = some 1
    ∧ (container (container deepTrackerState 0).1 0).2 = some 2
    ∧ (∀ v1 ∈ (getTracker (container (container deepTrackerState 0).1 0).1 1).deep.map
          Pred.values,
       ∀ v2 ∈ (getTracker (container (container deepTrackerState 0).1 0).1 2).deep.map
          Pred.values,
       v1 ≠ v2) := by
  have h := container_clones_disjoint_private_trees deepTrackerState 0
    (container deepTrackerState 0).1 (container (container deepTrackerState 0).1 0).1
    (getTracker (container (container deepTrackerState 0).1 0).1 1).deep
    (getTracker (container (container deepTrackerState 0).1 0).1 2).deep
    (by decide) (fun hcontra => List.noConfusion hcontra) rfl rfl rfl rfl
  exact ⟨h.1, h.2.1, h.2.2.2.2.1⟩

end Render3Query
